import Mathlib

/-!
Verification of the Lanczos band-pass variance pipeline (`lanczosbp.py`).

The development shallowly embeds the two core pieces of the script:

* `low_pass_weights` (lines 35–57): the Lanczos low-pass weight generator,
  modelled as the array `w` of length `nwts = 2*order + 1` built by the
  slice assignments, then sliced to `w[1:-1]`.
* the filtering pipeline in `main` (lines 87–105):
  `rolling(time = len(w), center = True).construct('window').dot(weights)`
  as a centered sliding-window dot product over the time axis (missing at
  indices without a full window — xarray pads the constructed windows with
  NaN there, and the dot product of a window containing NaN is NaN),
  band-pass differencing, and `xr.DataArray.var(..., dim = 'time',
  skipna = True)` with xarray's default `ddof = 0`.

Time grids are functions `ℕ → S → ℝ` (time index, spatial cell) together
with a time extent `T`; missing values are `Option.none`.
-/

namespace Lanczos

/-- `order = ((window - 1) // 2) + 1` (line 47).  For `window ≥ 1` the
Python floor division on ints agrees with `Nat` division. -/
def order (window : ℕ) : ℕ := (window - 1) / 2 + 1

/-- The product `firstfactor * sigma` assigned symmetrically at offset `k`
from the center (lines 53–54):
`sigma = sin(pi*k/n) * n / (pi*k)`, `firstfactor = sin(2*pi*cutoff*k) / (pi*k)`. -/
noncomputable def lanczosTerm (n : ℕ) (cutoff : ℝ) (k : ℕ) : ℝ :=
  (Real.sin (2 * Real.pi * cutoff * k) / (Real.pi * k)) *
    (Real.sin (Real.pi * k / n) * n / (Real.pi * k))

/-- Entry `i` of the length-`nwts` array `w` after the assignments of
lines 49–56: `w[n] = 2*cutoff`; `w[n-1:0:-1] = firstfactor * sigma`
(so `w[n-k] = p k` for `k = 1..n-1`); `w[n+1:-1] = firstfactor * sigma`
(so `w[n+k] = p k` for `k = 1..n-1`); `w[0]` and `w[2n]` keep their
initial zero. -/
noncomputable def wFull (window : ℕ) (cutoff : ℝ) (i : ℕ) : ℝ :=
  let n := order window
  if i = n then 2 * cutoff
  else if 1 ≤ i ∧ i < n then lanczosTerm n cutoff (n - i)
  else if n + 1 ≤ i ∧ i ≤ 2 * n - 1 then lanczosTerm n cutoff (i - n)
  else 0

/-- The full array `w` of line 49, `nwts = 2 * order + 1` entries. -/
noncomputable def wArr (window : ℕ) (cutoff : ℝ) : List ℝ :=
  (List.range (2 * order window + 1)).map (wFull window cutoff)

/-- `low_pass_weights` (lines 35–57): the slice `w[1:-1]`. -/
noncomputable def low_pass_weights (window : ℕ) (cutoff : ℝ) : List ℝ :=
  ((wArr window cutoff).drop 1).dropLast

theorem wArr_length (window : ℕ) (cutoff : ℝ) :
    (wArr window cutoff).length = 2 * order window + 1 := by
  simp [wArr]

theorem lpw_length (window : ℕ) (cutoff : ℝ) :
    (low_pass_weights window cutoff).length = 2 * order window - 1 := by
  simp [low_pass_weights, wArr_length]

theorem lpw_getD (window : ℕ) (cutoff : ℝ) (i : ℕ)
    (hi : i < 2 * order window - 1) :
    (low_pass_weights window cutoff).getD i 0 = wFull window cutoff (i + 1) := by
  have hlen : (low_pass_weights window cutoff).length = 2 * order window - 1 :=
    lpw_length window cutoff
  have hi' : i < (low_pass_weights window cutoff).length := by omega
  rw [List.getD_eq_getElem _ _ hi']
  simp only [low_pass_weights]
  rw [List.getElem_dropLast, List.getElem_drop]
  · simp only [wArr, List.getElem_map, List.getElem_range]
    congr 1
    omega

/-- The centered rolling window of length `L = w.length` fits at time `t`
within a time extent `T`: `⌊L/2⌋` steps available to the left and
`L - ⌊L/2⌋ - 1` to the right (for odd `L`, `⌊L/2⌋` on each side).  This is
where `rolling(time = L, center = True)` has a full window. -/
def windowFits (T L t : ℕ) : Prop := L / 2 ≤ t ∧ t + (L - L / 2) ≤ T

instance (T L t : ℕ) : Decidable (windowFits T L t) := by
  unfold windowFits; infer_instance

/-- One filtering pass of lines 87–88:
`grid.rolling(time = len(w), center = True).construct('window').dot(w)`
at time `t` and spatial cell `s`, for a grid of time extent `T`.
At a `t` with a full centered window it is the dot product of the `L`
grid values centered at `t` with `w`; elsewhere the constructed window
holds NaN and the dot product is NaN, modelled as `none`. -/
noncomputable def applyFilter {S : Type*} (T : ℕ) (grid : ℕ → S → ℝ)
    (w : List ℝ) (t : ℕ) (s : S) : Option ℝ :=
  if windowFits T w.length t then
    some (∑ i ∈ Finset.range w.length, w.getD i 0 * grid (t - w.length / 2 + i) s)
  else none

/-- Line 91: `bandpass = lowpass_hf - lowpass_lf`; NaN propagates, so the
difference is missing when either operand is. -/
noncomputable def bandpass {S : Type*} (T : ℕ) (grid : ℕ → S → ℝ)
    (wh wl : List ℝ) (t : ℕ) (s : S) : Option ℝ :=
  match applyFilter T grid wh t s, applyFilter T grid wl t s with
  | some a, some b => some (a - b)
  | _, _ => none

/-- The non-missing samples of a per-cell time series over extent `T`. -/
noncomputable def validVals (T : ℕ) (f : ℕ → Option ℝ) : List ℝ :=
  (List.range T).filterMap f

/-- `xr.DataArray.var(·, dim = 'time', skipna = True)` on one cell's
series of non-missing samples: xarray's default `ddof = 0`, i.e. the mean
of squared deviations; the all-NaN (empty) case yields NaN. -/
noncomputable def xrVar (l : List ℝ) : Option ℝ :=
  if l.length = 0 then none
  else some ((l.map (fun x => (x - l.sum / l.length) ^ 2)).sum / l.length)

/-- Line 105 applied to the band-pass of lines 87–91: the variance map at
spatial cell `s`. -/
noncomputable def computeVariance {S : Type*} (T : ℕ) (grid : ℕ → S → ℝ)
    (wh wl : List ℝ) (s : S) : Option ℝ :=
  xrVar (validVals T (fun t => bandpass T grid wh wl t s))

theorem sum_range_getD_eq_sum (l : List ℝ) :
    ∑ i ∈ Finset.range l.length, l.getD i 0 = l.sum := by
  induction l with
  | nil => simp
  | cons a l ih =>
      rw [List.length_cons, Finset.sum_range_succ']
      simp only [List.getD_cons_succ, List.getD_cons_zero, ih, List.sum_cons]
      ring

theorem order_pos (window : ℕ) : 1 ≤ order window :=
  Nat.succ_le_succ (Nat.zero_le _)

theorem wFull_center (window : ℕ) (cutoff : ℝ) :
    wFull window cutoff (order window) = 2 * cutoff := by
  simp [wFull]

theorem wFull_left (window : ℕ) (cutoff : ℝ) (k : ℕ) (hk1 : 1 ≤ k)
    (hk2 : k < order window) :
    wFull window cutoff (order window - k) = lanczosTerm (order window) cutoff k := by
  simp only [wFull]
  rw [if_neg (by omega), if_pos ⟨by omega, by omega⟩]
  congr 1
  omega

theorem wFull_right (window : ℕ) (cutoff : ℝ) (k : ℕ) (hk1 : 1 ≤ k)
    (hk2 : k < order window) :
    wFull window cutoff (order window + k) = lanczosTerm (order window) cutoff k := by
  simp only [wFull]
  rw [if_neg (by omega), if_neg (by omega), if_pos ⟨by omega, by omega⟩]
  congr 1
  omega

theorem wFull_symm (window : ℕ) (cutoff : ℝ) (j : ℕ) (h1 : 1 ≤ j)
    (h2 : j ≤ 2 * order window - 1) :
    wFull window cutoff j = wFull window cutoff (2 * order window - j) := by
  have hn : 1 ≤ order window := order_pos window
  rcases Nat.lt_trichotomy j (order window) with hlt | heq | hgt
  · rw [show j = order window - (order window - j) by omega,
      wFull_left window cutoff _ (by omega) (by omega),
      show 2 * order window - (order window - (order window - j)) =
        order window + (order window - j) by omega,
      wFull_right window cutoff _ (by omega) (by omega)]
  · rw [heq, show 2 * order window - order window = order window by omega]
  · rw [show j = order window + (j - order window) by omega,
      wFull_right window cutoff _ (by omega) (by omega),
      show 2 * order window - (order window + (j - order window)) =
        order window - (j - order window) by omega,
      wFull_left window cutoff _ (by omega) (by omega)]

theorem lpw_getD_center (window : ℕ) (cutoff : ℝ) :
    (low_pass_weights window cutoff).getD (order window - 1) 0 = 2 * cutoff := by
  have hn : 1 ≤ order window := order_pos window
  rw [lpw_getD _ _ _ (by omega), show order window - 1 + 1 = order window by omega,
    wFull_center]

/-- C1: for every integer `window ≥ 1` and real `cutoff ∈ (0, 0.5]`, the
weight sequence returned by `low_pass_weights` has center value exactly
`2 * cutoff`, and for each `k ∈ 1..n-1` (with `n = ((window-1) div 2) + 1`)
the value at offset `k` on either side of the center equals
`(sin(2*pi*cutoff*k)/(pi*k)) * (sin(pi*k/n)*n/(pi*k))`. -/
theorem lpw_values (window : ℕ) (cutoff : ℝ) (hw : 1 ≤ window)
    (hc0 : 0 < cutoff) (hc : cutoff ≤ 1 / 2) :
    (low_pass_weights window cutoff).getD (order window - 1) 0 = 2 * cutoff ∧
    ∀ k, 1 ≤ k → k < order window →
      (low_pass_weights window cutoff).getD (order window - 1 - k) 0 =
        Real.sin (2 * Real.pi * cutoff * k) / (Real.pi * k) *
          (Real.sin (Real.pi * k / order window) * order window / (Real.pi * k)) ∧
      (low_pass_weights window cutoff).getD (order window - 1 + k) 0 =
        Real.sin (2 * Real.pi * cutoff * k) / (Real.pi * k) *
          (Real.sin (Real.pi * k / order window) * order window / (Real.pi * k)) := by
  have hn : 1 ≤ order window := order_pos window
  refine ⟨lpw_getD_center window cutoff, fun k hk1 hk2 => ⟨?_, ?_⟩⟩
  · rw [lpw_getD _ _ _ (by omega),
      show order window - 1 - k + 1 = order window - k by omega,
      wFull_left window cutoff k hk1 hk2]
    rfl
  · rw [lpw_getD _ _ _ (by omega),
      show order window - 1 + k + 1 = order window + k by omega,
      wFull_right window cutoff k hk1 hk2]
    rfl

theorem lpw_values_witness :
    1 ≤ 5 ∧ (0 : ℝ) < 1 / 2 ∧ (1 / 2 : ℝ) ≤ 1 / 2 ∧
    (low_pass_weights 5 (1 / 2 : ℝ)).getD 2 0 = 2 * (1 / 2 : ℝ) ∧
    (low_pass_weights 5 (1 / 2 : ℝ)).getD 1 0 =
      Real.sin (2 * Real.pi * (1 / 2) * 1) / (Real.pi * 1) *
        (Real.sin (Real.pi * 1 / 3) * 3 / (Real.pi * 1)) ∧
    (low_pass_weights 5 (1 / 2 : ℝ)).getD 3 0 =
      Real.sin (2 * Real.pi * (1 / 2) * 1) / (Real.pi * 1) *
        (Real.sin (Real.pi * 1 / 3) * 3 / (Real.pi * 1)) := by
  have h := lpw_values 5 (1 / 2) (by norm_num) (by norm_num) (by norm_num)
  have hk := h.2 1 (by norm_num) (by norm_num [order])
  have ho : order 5 = 3 := by norm_num [order]
  refine ⟨by norm_num, by norm_num, by norm_num, ?_, ?_, ?_⟩
  · simpa [ho] using h.1
  · have := hk.1
    rw [ho] at this
    simpa using this
  · have := hk.2
    rw [ho] at this
    simpa using this

/-- C3: for every valid `window` and `cutoff`, `low_pass_weights` returns a
sequence of odd length `2*order - 1` where `order = ((window-1) div 2) + 1`;
in particular `len(FilterWeights) == window` is not guaranteed (at
`window = 50` the returned length is 49). -/
theorem lpw_length_odd (window : ℕ) (cutoff : ℝ) (hw : 1 ≤ window) :
    (low_pass_weights window cutoff).length = 2 * order window - 1 ∧
    Odd (low_pass_weights window cutoff).length ∧
    (low_pass_weights 50 (1 / 3 : ℝ)).length ≠ 50 := by
  have hn : 1 ≤ order window := order_pos window
  refine ⟨lpw_length window cutoff, ?_, ?_⟩
  · rw [lpw_length]
    exact ⟨order window - 1, by omega⟩
  · rw [lpw_length]
    norm_num [order]

theorem lpw_length_odd_witness :
    1 ≤ 5 ∧ ((low_pass_weights 5 (1 / 4 : ℝ)).length = 2 * order 5 - 1 ∧
      Odd (low_pass_weights 5 (1 / 4 : ℝ)).length ∧
      (low_pass_weights 50 (1 / 3 : ℝ)).length ≠ 50) :=
  ⟨by norm_num, lpw_length_odd 5 (1 / 4) (by norm_num)⟩

/-- C4: for every valid `window` and `cutoff`, the weight sequence returned
by `low_pass_weights` is symmetric about its center:
`weights[i] == weights[len-1-i]` for every index `i`. -/
theorem lpw_symmetric (window : ℕ) (cutoff : ℝ) (hw : 1 ≤ window)
    (hc0 : 0 < cutoff) (hc : cutoff ≤ 1 / 2) (i : ℕ)
    (hi : i < (low_pass_weights window cutoff).length) :
    (low_pass_weights window cutoff).getD i 0 =
      (low_pass_weights window cutoff).getD
        ((low_pass_weights window cutoff).length - 1 - i) 0 := by
  have hn : 1 ≤ order window := order_pos window
  rw [lpw_length] at hi ⊢
  rw [lpw_getD _ _ _ (by omega), lpw_getD _ _ _ (by omega),
    wFull_symm window cutoff (i + 1) (by omega) (by omega)]
  congr 1
  omega

theorem lpw_symmetric_witness :
    1 ≤ 5 ∧ (0 : ℝ) < 1 / 4 ∧ (1 / 4 : ℝ) ≤ 1 / 2 ∧
    0 < (low_pass_weights 5 (1 / 4 : ℝ)).length ∧
    (low_pass_weights 5 (1 / 4 : ℝ)).getD 0 0 =
      (low_pass_weights 5 (1 / 4 : ℝ)).getD
        ((low_pass_weights 5 (1 / 4 : ℝ)).length - 1 - 0) 0 := by
  have hlen : 0 < (low_pass_weights 5 (1 / 4 : ℝ)).length := by
    rw [lpw_length]; norm_num [order]
  exact ⟨by norm_num, by norm_num, by norm_num, hlen,
    lpw_symmetric 5 (1 / 4) (by norm_num) (by norm_num) (by norm_num) 0 hlen⟩

theorem lpw_window_one (cutoff : ℝ) : low_pass_weights 1 cutoff = [2 * cutoff] := by
  have ho : order 1 = 1 := by norm_num [order]
  simp [low_pass_weights, wArr, ho, List.range_succ, wFull]

theorem lpw_window_two (cutoff : ℝ) : low_pass_weights 2 cutoff = [2 * cutoff] := by
  have ho : order 2 = 1 := by norm_num [order]
  simp [low_pass_weights, wArr, ho, List.range_succ, wFull]

/-- C10: `low_pass_weights` is total over its public interface: for every
integer `window ≥ 1` and every real `cutoff` it returns a weight sequence
(of length `2*(((window-1) div 2)+1) - 1`) without raising, and in the
degenerate cases `window = 1` and `window = 2` (where `n = 1` and the `k`
range is empty) the result is the single-element sequence `[2*cutoff]`. -/
theorem lpw_total (cutoff : ℝ) :
    low_pass_weights 1 cutoff = [2 * cutoff] ∧
    low_pass_weights 2 cutoff = [2 * cutoff] ∧
    ∀ window, 1 ≤ window →
      (low_pass_weights window cutoff).length = 2 * ((window - 1) / 2 + 1) - 1 := by
  refine ⟨lpw_window_one cutoff, lpw_window_two cutoff, fun window hw => ?_⟩
  rw [lpw_length]
  rfl

theorem lpw_total_witness :
    low_pass_weights 1 (1 / 3 : ℝ) = [2 * (1 / 3 : ℝ)] ∧
    low_pass_weights 2 (1 / 3 : ℝ) = [2 * (1 / 3 : ℝ)] ∧
    1 ≤ 7 ∧ (low_pass_weights 7 (1 / 3 : ℝ)).length = 2 * ((7 - 1) / 2 + 1) - 1 :=
  ⟨(lpw_total (1 / 3)).1, (lpw_total (1 / 3)).2.1, by norm_num,
    (lpw_total (1 / 3)).2.2 7 (by norm_num)⟩

/-- C7 counterexample: with `cutoff = 0.7 ∉ (0, 0.5)` the code does not
fail fast: `low_pass_weights 5 0.7` computes a full five-entry weight
sequence whose center is `2 * 0.7 = 1.4`. -/
theorem lpw_no_validation_cex :
    ¬ ((0 : ℝ) < 7 / 10 ∧ (7 / 10 : ℝ) < 1 / 2) ∧
    (low_pass_weights 5 (7 / 10 : ℝ)).length = 5 ∧
    (low_pass_weights 5 (7 / 10 : ℝ)).getD 2 0 = 7 / 5 := by
  refine ⟨by norm_num, ?_, ?_⟩
  · rw [lpw_length]; norm_num [order]
  · have h := lpw_getD_center 5 (7 / 10 : ℝ)
    norm_num [order] at h
    convert h using 2

/-- C7 (amended): weight generation performs no parameter validation: for
every `window ≥ 1` and every real `cutoff` — including cutoffs outside
`(0, 0.5)` — `low_pass_weights` returns a full weight sequence of length
`2*order - 1` whose center value is `2 * cutoff`; no error is raised. -/
theorem lpw_no_validation (window : ℕ) (cutoff : ℝ) (hw : 1 ≤ window) :
    (low_pass_weights window cutoff).getD (order window - 1) 0 = 2 * cutoff ∧
    (low_pass_weights window cutoff).length = 2 * order window - 1 :=
  ⟨lpw_getD_center window cutoff, lpw_length window cutoff⟩

theorem lpw_no_validation_witness :
    1 ≤ 5 ∧ (low_pass_weights 5 (-3 : ℝ)).getD (order 5 - 1) 0 = 2 * (-3 : ℝ) ∧
    (low_pass_weights 5 (-3 : ℝ)).length = 2 * order 5 - 1 :=
  ⟨by norm_num, (lpw_no_validation 5 (-3) (by norm_num)).1,
    (lpw_no_validation 5 (-3) (by norm_num)).2⟩

/-- C2: for every grid and weight sequence of (odd) length `L`, the
sliding-window filter produces, at each time index `t` with at least
`⌊L/2⌋` neighbors on each side within the time extent, the weighted dot
product of the `L` grid values centered at `t` with the weights in
matching order, independently at every spatial cell; at every time index
without a full centered window it produces a missing value.  (A window of
even length has no center; the program only ever builds odd lengths
`2*order - 1`.) -/
theorem applyFilter_spec {S : Type*} (T : ℕ) (grid : ℕ → S → ℝ) (w : List ℝ)
    (t : ℕ) (s : S) (hodd : Odd w.length) :
    (w.length / 2 ≤ t ∧ t + w.length / 2 < T →
      applyFilter T grid w t s =
        some (∑ i ∈ Finset.range w.length,
          w.getD i 0 * grid (t - w.length / 2 + i) s)) ∧
    (¬ (w.length / 2 ≤ t ∧ t + w.length / 2 < T) →
      applyFilter T grid w t s = none) := by
  obtain ⟨m, hm⟩ := hodd
  have hfit : windowFits T w.length t ↔ (w.length / 2 ≤ t ∧ t + w.length / 2 < T) := by
    unfold windowFits
    omega
  constructor
  · intro h
    unfold applyFilter
    rw [if_pos (hfit.mpr h)]
  · intro h
    unfold applyFilter
    rw [if_neg (fun hf => h (hfit.mp hf))]

theorem applyFilter_spec_witness :
    Odd ([(1 : ℝ), 2, 3]).length ∧
    ([(1 : ℝ), 2, 3]).length / 2 ≤ 1 ∧ 1 + ([(1 : ℝ), 2, 3]).length / 2 < 3 ∧
    applyFilter 3 (fun t (_ : Unit) => (t : ℝ)) [(1 : ℝ), 2, 3] 1 () = some 8 := by
  have h := (applyFilter_spec 3 (fun t (_ : Unit) => (t : ℝ)) [(1 : ℝ), 2, 3] 1 ()
    ⟨1, by norm_num⟩).1 (by norm_num)
  refine ⟨⟨1, by norm_num⟩, by norm_num, by norm_num, ?_⟩
  rw [h]
  norm_num [Finset.sum_range_succ]

/-- C9: for every constant-valued grid (all cells equal to `c`) and every
weight sequence, the sliding-window filter returns `c * sum(weights)` at
every time index where a full centered window exists, and missing at every
other time index. -/
theorem applyFilter_const {S : Type*} (T : ℕ) (w : List ℝ) (c : ℝ) (t : ℕ) (s : S) :
    applyFilter T (fun _ _ => c) w t s =
      if windowFits T w.length t then some (c * w.sum) else none := by
  unfold applyFilter
  split_ifs with h
  · congr 1
    rw [← sum_range_getD_eq_sum w, Finset.mul_sum]
    exact Finset.sum_congr rfl (fun i _ => by ring)
  · rfl

/-- C6 counterexample: with `window = 2` the returned weight list has
length 1 and the filter leaves no missing margin at all: on a time extent
of 1 the index `t = 0` (which is within `⌊window/2⌋ = 1` steps of the
start, hence claimed missing) gets a defined value. -/
theorem filtered_margin_cex :
    (low_pass_weights 2 (1 / 4 : ℝ)).length = 1 ∧ (0 : ℕ) < 2 / 2 ∧
    applyFilter 1 (fun _ (_ : Unit) => (0 : ℝ)) (low_pass_weights 2 (1 / 4 : ℝ)) 0 ()
      = some 0 := by
  rw [lpw_window_two]
  refine ⟨rfl, by norm_num, ?_⟩
  unfold applyFilter
  rw [if_pos (by unfold windowFits; norm_num)]
  norm_num [Finset.sum_range_succ]

/-- C6 (amended): for every `TimeGrid` filtered with weights built from
parameter `window ≥ 1`, the filtered grid has the same shape but with
exactly `⌊(window-1)/2⌋` (not `⌊window/2⌋`) time steps at each end
missing: the value at `t` is missing exactly when `t < ⌊(window-1)/2⌋` or
`T < t + ⌊(window-1)/2⌋ + 1`, and it is a missing marker, not zero. -/
theorem filtered_margin {S : Type*} (window : ℕ) (cutoff : ℝ) (T : ℕ)
    (grid : ℕ → S → ℝ) (t : ℕ) (s : S) (hw : 1 ≤ window) :
    applyFilter T grid (low_pass_weights window cutoff) t s = none ↔
      (t < (window - 1) / 2 ∨ T < t + (window - 1) / 2 + 1) := by
  have hn : 1 ≤ order window := order_pos window
  have hfit : windowFits T (low_pass_weights window cutoff).length t ↔
      ¬ (t < (window - 1) / 2 ∨ T < t + (window - 1) / 2 + 1) := by
    rw [lpw_length]
    unfold windowFits order
    omega
  unfold applyFilter
  split_ifs with h
  · exact iff_of_false (by simp) (hfit.mp h)
  · exact iff_of_true rfl (not_not.mp (mt hfit.mpr h))

theorem filtered_margin_witness :
    1 ≤ 3 ∧
    (applyFilter 2 (fun _ (_ : Unit) => (0 : ℝ)) (low_pass_weights 3 (1 / 4 : ℝ)) 0 ()
        = none ↔ ((0 : ℕ) < (3 - 1) / 2 ∨ 2 < 0 + (3 - 1) / 2 + 1)) ∧
    applyFilter 2 (fun _ (_ : Unit) => (0 : ℝ)) (low_pass_weights 3 (1 / 4 : ℝ)) 0 ()
      = none := by
  have h := filtered_margin 3 (1 / 4 : ℝ) 2 (fun _ (_ : Unit) => (0 : ℝ)) 0 ()
    (by norm_num)
  exact ⟨by norm_num, h, h.mpr (by norm_num)⟩

theorem xrVar_none_iff (l : List ℝ) : xrVar l = none ↔ l = [] := by
  unfold xrVar
  split_ifs with h
  · rw [List.length_eq_zero] at h
    simp [h]
  · exact iff_of_false (by simp) (fun he => h (by simp [he]))

theorem xrVar_single (x : ℝ) : xrVar [x] = some 0 := by
  unfold xrVar
  norm_num

/-- C5 (amended): a variance cell is missing iff its band-passed series
has zero non-missing samples; with exactly one non-missing sample the
variance is `0` (xarray's default `ddof = 0`), not missing — so a time
extent yielding exactly one valid band-passed index produces an all-zero
variance map, not an all-missing one. -/
theorem variance_missing_iff {S : Type*} (T : ℕ) (grid : ℕ → S → ℝ)
    (wh wl : List ℝ) (s : S) :
    (computeVariance T grid wh wl s = none ↔
      validVals T (fun t => bandpass T grid wh wl t s) = []) ∧
    ∀ x, validVals T (fun t => bandpass T grid wh wl t s) = [x] →
      computeVariance T grid wh wl s = some 0 := by
  refine ⟨xrVar_none_iff _, fun x hx => ?_⟩
  unfold computeVariance
  rw [hx]
  exact xrVar_single x

/-- C5 counterexample: with `T = 3`, a constant-zero grid, a length-1
high-pass weight list and a length-3 low-pass weight list, exactly one
band-passed time index is valid (one non-missing sample, fewer than 2),
yet the variance cell is `some 0`, not missing. -/
theorem variance_single_sample_cex :
    validVals 3 (fun t => bandpass 3 (fun _ (_ : Unit) => (0 : ℝ)) [1] [1, 1, 1] t ())
      = [0] ∧
    computeVariance 3 (fun _ (_ : Unit) => (0 : ℝ)) [1] [1, 1, 1] () = some 0 := by
  have hh : ∀ t, t < 3 →
      applyFilter 3 (fun _ (_ : Unit) => (0 : ℝ)) [(1 : ℝ)] t () = some 0 := by
    intro t ht
    unfold applyFilter
    rw [if_pos (by unfold windowFits; simp; omega)]
    norm_num [Finset.sum_range_succ]
  have hl1 : applyFilter 3 (fun _ (_ : Unit) => (0 : ℝ)) [(1 : ℝ), 1, 1] 1 ()
      = some 0 := by
    unfold applyFilter
    rw [if_pos (by unfold windowFits; norm_num)]
    norm_num [Finset.sum_range_succ]
  have hl0 : applyFilter 3 (fun _ (_ : Unit) => (0 : ℝ)) [(1 : ℝ), 1, 1] 0 ()
      = none := by
    unfold applyFilter
    rw [if_neg (by unfold windowFits; norm_num)]
  have hl2 : applyFilter 3 (fun _ (_ : Unit) => (0 : ℝ)) [(1 : ℝ), 1, 1] 2 ()
      = none := by
    unfold applyFilter
    rw [if_neg (by unfold windowFits; norm_num)]
  have hb0 : bandpass 3 (fun _ (_ : Unit) => (0 : ℝ)) [1] [1, 1, 1] 0 () = none := by
    unfold bandpass
    rw [hh 0 (by norm_num), hl0]
  have hb1 : bandpass 3 (fun _ (_ : Unit) => (0 : ℝ)) [1] [1, 1, 1] 1 () = some 0 := by
    unfold bandpass
    rw [hh 1 (by norm_num), hl1]
    norm_num
  have hb2 : bandpass 3 (fun _ (_ : Unit) => (0 : ℝ)) [1] [1, 1, 1] 2 () = none := by
    unfold bandpass
    rw [hh 2 (by norm_num), hl2]
  have hv : validVals 3
      (fun t => bandpass 3 (fun _ (_ : Unit) => (0 : ℝ)) [1] [1, 1, 1] t ()) = [0] := by
    unfold validVals
    rw [show List.range 3 = [0, 1, 2] by rfl]
    simp [List.filterMap, hb0, hb1, hb2]
  refine ⟨hv, ?_⟩
  unfold computeVariance
  rw [hv, xrVar_single]

theorem variance_missing_iff_witness :
    validVals 3 (fun t => bandpass 3 (fun _ (_ : Unit) => (5 : ℝ)) [1] [0, 0, 0] t ())
      = [5] ∧
    computeVariance 3 (fun _ (_ : Unit) => (5 : ℝ)) [1] [0, 0, 0] () = some 0 := by
  have hh : ∀ t, t < 3 →
      applyFilter 3 (fun _ (_ : Unit) => (5 : ℝ)) [(1 : ℝ)] t () = some 5 := by
    intro t ht
    unfold applyFilter
    rw [if_pos (by unfold windowFits; simp; omega)]
    norm_num [Finset.sum_range_succ]
  have hl1 : applyFilter 3 (fun _ (_ : Unit) => (5 : ℝ)) [(0 : ℝ), 0, 0] 1 ()
      = some 0 := by
    unfold applyFilter
    rw [if_pos (by unfold windowFits; norm_num)]
    norm_num [Finset.sum_range_succ]
  have hl0 : applyFilter 3 (fun _ (_ : Unit) => (5 : ℝ)) [(0 : ℝ), 0, 0] 0 ()
      = none := by
    unfold applyFilter
    rw [if_neg (by unfold windowFits; norm_num)]
  have hl2 : applyFilter 3 (fun _ (_ : Unit) => (5 : ℝ)) [(0 : ℝ), 0, 0] 2 ()
      = none := by
    unfold applyFilter
    rw [if_neg (by unfold windowFits; norm_num)]
  have hb0 : bandpass 3 (fun _ (_ : Unit) => (5 : ℝ)) [1] [0, 0, 0] 0 () = none := by
    unfold bandpass
    rw [hh 0 (by norm_num), hl0]
  have hb1 : bandpass 3 (fun _ (_ : Unit) => (5 : ℝ)) [1] [0, 0, 0] 1 () = some 5 := by
    unfold bandpass
    rw [hh 1 (by norm_num), hl1]
    norm_num
  have hb2 : bandpass 3 (fun _ (_ : Unit) => (5 : ℝ)) [1] [0, 0, 0] 2 () = none := by
    unfold bandpass
    rw [hh 2 (by norm_num), hl2]
  have hv : validVals 3
      (fun t => bandpass 3 (fun _ (_ : Unit) => (5 : ℝ)) [1] [0, 0, 0] t ()) = [5] := by
    unfold validVals
    rw [show List.range 3 = [0, 1, 2] by rfl]
    simp [List.filterMap, hb0, hb1, hb2]
  exact ⟨hv,
    (variance_missing_iff 3 (fun _ (_ : Unit) => (5 : ℝ)) [1] [0, 0, 0] ()).2 5 hv⟩

/-- C8: for every grid whose time extent is smaller than
`max(len(highCutoffWeights), len(lowCutoffWeights))`, the variance map is
missing at every cell; this is a defined degenerate result, not an
error. -/
theorem variance_short_extent {S : Type*} (T : ℕ) (grid : ℕ → S → ℝ)
    (wh wl : List ℝ) (h : T < max wh.length wl.length) (s : S) :
    computeVariance T grid wh wl s = none := by
  have key : ∀ t, bandpass T grid wh wl t s = none := by
    intro t
    unfold bandpass
    rcases le_or_lt wh.length wl.length with hle | hlt
    · have hT : T < wl.length := by
        rw [max_eq_right hle] at h
        exact h
      have hnone : applyFilter T grid wl t s = none := by
        unfold applyFilter
        rw [if_neg (by unfold windowFits; omega)]
      rw [hnone]
      cases applyFilter T grid wh t s <;> rfl
    · have hT : T < wh.length := by
        rw [max_eq_left hlt.le] at h
        exact h
      have hnone : applyFilter T grid wh t s = none := by
        unfold applyFilter
        rw [if_neg (by unfold windowFits; omega)]
      rw [hnone]
  unfold computeVariance
  have hv : validVals T (fun t => bandpass T grid wh wl t s) = [] := by
    unfold validVals
    exact List.filterMap_eq_nil_iff.mpr (fun a _ => key a)
  rw [hv]
  rfl

theorem variance_short_extent_witness :
    1 < max ([(1 : ℝ)]).length ([(1 : ℝ), 1, 1]).length ∧
    computeVariance 1 (fun _ (_ : Unit) => (0 : ℝ)) [(1 : ℝ)] [(1 : ℝ), 1, 1] ()
      = none :=
  ⟨by norm_num,
    variance_short_extent 1 (fun _ (_ : Unit) => (0 : ℝ)) [(1 : ℝ)] [(1 : ℝ), 1, 1]
      (by norm_num) ()⟩

end Lanczos
